import Mathlib

/-!
Verification of the spreadsheet ingestion and generic-row data model of the
inventory-management repository.  The frontend sources (`App.tsx`, `api.ts`)
are embedded directly; backend operations that only appear as callers in the
sources are modelled from the specification and marked as such in their doc
comments.
-/

set_option autoImplicit false

namespace Inventory

/-- A raw Excel row as exposed by the API (`ExcelRow` in api.ts): surrogate id,
owning sheet, original row index, and an open column-to-value mapping. -/
structure ExcelRow where
  id : Nat
  sheet_id : Nat
  row_index : Nat
  data : List (String × String)
deriving Repr, DecidableEq

/-- The selected cell of the raw Excel view (`excelActiveCell` in App.tsx). -/
structure ActiveCell where
  rowId : Nat
  col : String
deriving Repr, DecidableEq

/-- JavaScript `Array.prototype.findIndex`: index of the first element
satisfying `p`, or `-1` when none does. -/
def jsFindIndex {α : Type} (p : α → Bool) (xs : List α) : Int :=
  match xs.findIdx? p with
  | some i => (i : Int)
  | none => -1

/-- JavaScript `String.prototype.split` on a single separator character,
working over the character list: splitting never yields an empty list. -/
def splitOnCharAux (sep : Char) : List Char → List Char → List (List Char)
  | [], acc => [acc.reverse]
  | c :: cs, acc =>
    if c == sep then acc.reverse :: splitOnCharAux sep cs []
    else splitOnCharAux sep cs (c :: acc)

/-- Whitespace for the purposes of `String.prototype.trim`. -/
def isWsChar (c : Char) : Bool :=
  c == ' ' || c == '\t' || c == '\n' || c == '\r'

/-- JavaScript `String.prototype.trim`: strip whitespace from both ends. -/
def trimChars (cs : List Char) : List Char :=
  ((cs.dropWhile isWsChar).reverse.dropWhile isWsChar).reverse

/-- Drop one carriage return at the end of a line, as `/\r?\n/` consumes it. -/
def dropTrailingCR (cs : List Char) : List Char :=
  match cs.reverse with
  | '\r' :: rest => rest.reverse
  | _ => cs

/-- `text.split(/\r?\n/)`: split on line feeds, each piece losing a carriage
return at its end. -/
def splitLinesJS (cs : List Char) : List (List Char) :=
  (splitOnCharAux '\n' cs []).map dropTrailingCR

/-- The pasted grid of `applyExcelPasteTSV` (App.tsx): trim the paste text,
split it into lines, drop blank lines, and split each line on tabs. -/
def pasteGrid (excelPasteText : String) : List (List String) :=
  ((splitLinesJS (trimChars excelPasteText.toList)).filter (fun ln => ln ≠ [])).map
    (fun ln => (splitOnCharAux '\t' ln []).map String.mk)

/-- Anchor row of `applyExcelPasteTSV`: position of the active cell's row among
the loaded rows, clamped to `0` (`Math.max(0, findIndex ...)`), and `0` when no
cell is selected. -/
def pasteStartRowIndex (activeCell : Option ActiveCell) (excelRows : List ExcelRow) : Nat :=
  match activeCell with
  | none => 0
  | some a => (max 0 (jsFindIndex (fun r => r.id == a.rowId) excelRows)).toNat

/-- Anchor column of `applyExcelPasteTSV`: position of the active cell's column
among the sheet columns, clamped to `0`, and `0` when no cell is selected. -/
def pasteStartColIndex (activeCell : Option ActiveCell) (excelColumns : List String) : Nat :=
  match activeCell with
  | none => 0
  | some a => (max 0 (jsFindIndex (fun c => c == a.col) excelColumns)).toNat

/-- Inner loop of `applyExcelPasteTSV`: the `c`-th pasted cell goes to column
`excelColumns[startColIndex + c]`; a missing key — or an empty-string key,
which is falsy in JavaScript — stops the loop (`if (!key) break`). -/
def buildPastePatch (excelColumns : List String) (startColIndex : Nat) :
    List String → List (String × String)
  | [] => []
  | v :: rest =>
    match excelColumns.get? startColIndex with
    | none => []
    | some k =>
      if k = "" then []
      else (k, v) :: buildPastePatch excelColumns (startColIndex + 1) rest

/-- Outer loop of `applyExcelPasteTSV`: grid row `r` is paired with the loaded
row at `startRowIndex + r` (here the anchored suffix is passed directly); a
missing target row stops the loop, and an empty patch issues no call. -/
def pastePatchCallsAux (cols : List String) (startCol : Nat) :
    List ExcelRow → List (List String) → List (Nat × List (String × String))
  | _, [] => []
  | [], _ :: _ => []
  | row :: rows, cells :: grid =>
    let patch := buildPastePatch cols startCol cells
    if patch = [] then pastePatchCallsAux cols startCol rows grid
    else (row.id, patch) :: pastePatchCallsAux cols startCol rows grid

/-- `applyExcelPasteTSV` (App.tsx), modelled as the ordered list of
`patchExcelRow` calls `(row id, patch)` it issues.  Blank paste text, no loaded
rows, no columns, or no grid lines make it a no-op, exactly as in the source. -/
def applyExcelPasteTSV (excelRows : List ExcelRow) (excelColumns : List String)
    (activeCell : Option ActiveCell) (excelPasteText : String) :
    List (Nat × List (String × String)) :=
  if trimChars excelPasteText.toList = [] then []
  else if excelRows.isEmpty || excelColumns.isEmpty then []
  else if (pasteGrid excelPasteText).isEmpty then []
  else
    pastePatchCallsAux excelColumns (pasteStartColIndex activeCell excelColumns)
      (excelRows.drop (pasteStartRowIndex activeCell excelRows))
      (pasteGrid excelPasteText)

/-- JavaScript-object style insert-or-overwrite of one key of a row's data. -/
def setKey (data : List (String × String)) (k v : String) : List (String × String) :=
  if data.any (fun kv => kv.1 == k) then
    data.map (fun kv => if kv.1 == k then (k, v) else kv)
  else data ++ [(k, v)]

/-- Apply a patch payload to a data mapping, key by key, later entries winning. -/
def applyPatchData (data patch : List (String × String)) : List (String × String) :=
  patch.foldl (fun d kv => setKey d kv.1 kv.2) data

/-- Modelled from the spec: the backend handler of `PATCH /excel/rows/{id}` is
not among the sources (only its caller `patchExcelRow` in api.ts is); per §4.6 a
raw-row patch overwrites exactly the named values inside the row's `data`
mapping. -/
def patchExcelRow (r : ExcelRow) (payload : List (String × String)) : ExcelRow :=
  { r with data := applyPatchData r.data payload }

/-- Apply one patch call to the row store: only the row with the given id is
replaced by its patched version. -/
def patchRowInStore (store : List ExcelRow) (rowId : Nat)
    (payload : List (String × String)) : List ExcelRow :=
  store.map (fun r => if r.id == rowId then patchExcelRow r payload else r)

/-- Apply a list of patch calls in order, all of them succeeding. -/
def runAllCalls (store : List ExcelRow) (calls : List (Nat × List (String × String))) :
    List ExcelRow :=
  calls.foldl (fun s c => patchRowInStore s c.1 c.2) store

/-- The paste loop of `applyExcelPasteTSV` against a fallible backend: `fails i`
says the `i`-th awaited `patchExcelRow` call raises.  The raised error leaves
the loop (it is caught by the surrounding try/catch), so the store keeps every
patch applied before the failure and receives none after it. -/
def runPasteCallsAux (fails : Nat → Bool) :
    List ExcelRow → List (Nat × List (String × String)) → Nat → List ExcelRow
  | store, [], _ => store
  | store, c :: rest, i =>
    if fails i then store
    else runPasteCallsAux fails (patchRowInStore store c.1 c.2) rest (i + 1)

/-- Store contents after a bulk paste in which some calls may fail. -/
def runPasteCalls (store : List ExcelRow) (calls : List (Nat × List (String × String)))
    (fails : Nat → Bool) : List ExcelRow :=
  runPasteCallsAux fails store calls 0


/-! ### Helper lemmas about the bulk-paste pipeline -/

theorem buildPastePatch_keys (cols : List String) (hcols : ∀ k ∈ cols, k ≠ "") :
    ∀ (cells : List String) (sc : Nat),
      (buildPastePatch cols sc cells).map Prod.fst = (cols.drop sc).take cells.length := by
  intro cells
  induction cells with
  | nil => intro sc; simp [buildPastePatch]
  | cons v rest ih =>
    intro sc
    simp only [buildPastePatch]
    cases h : cols.get? sc with
    | none =>
      have hlen : cols.length ≤ sc := by
        simpa [List.get?_eq_getElem?, List.getElem?_eq_none_iff] using h
      simp [List.drop_eq_nil_of_le hlen]
    | some k =>
      have hmem : k ∈ cols := List.get?_mem h
      have hk : k ≠ "" := hcols k hmem
      have hlt : sc < cols.length := by
        by_contra hle
        push_neg at hle
        rw [List.get?_eq_getElem?, List.getElem?_eq_none (by omega)] at h
        exact Option.noConfusion h
      have hdrop : cols.drop sc = cols[sc] :: cols.drop (sc + 1) :=
        List.drop_eq_getElem_cons hlt
      have hget : cols[sc] = k := by
        have h2 := h
        rw [List.get?_eq_getElem?] at h2
        simpa [List.getElem?_eq_getElem hlt] using h2
      rw [hdrop, hget]
      simp [hk, ih]

theorem pastePatchCallsAux_rows_sublist (cols : List String) (sc : Nat) :
    ∀ (grid : List (List String)) (rows : List ExcelRow),
      ((pastePatchCallsAux cols sc rows grid).map Prod.fst).Sublist
        ((rows.take grid.length).map ExcelRow.id) := by
  intro grid
  induction grid with
  | nil => intro rows; cases rows <;> simp [pastePatchCallsAux]
  | cons cells g ih =>
    intro rows
    cases rows with
    | nil => simp [pastePatchCallsAux]
    | cons row rs =>
      simp only [pastePatchCallsAux, List.take, List.map, List.length]
      by_cases hp : buildPastePatch cols sc cells = []
      · simp only [hp, if_pos rfl]
        exact (ih rs).cons row.id
      · simp only [if_neg hp, List.map]
        exact (ih rs).cons₂ row.id

theorem pastePatchCallsAux_patch_origin (cols : List String) (sc : Nat) :
    ∀ (grid : List (List String)) (rows : List ExcelRow),
      ∀ call ∈ pastePatchCallsAux cols sc rows grid,
        ∃ cells ∈ grid, call.2 = buildPastePatch cols sc cells := by
  intro grid
  induction grid with
  | nil => intro rows; cases rows <;> simp [pastePatchCallsAux]
  | cons cells g ih =>
    intro rows call hcall
    cases rows with
    | nil => simp [pastePatchCallsAux] at hcall
    | cons row rs =>
      simp only [pastePatchCallsAux] at hcall
      by_cases hp : buildPastePatch cols sc cells = []
      · simp only [hp, if_pos rfl] at hcall
        obtain ⟨c, hc, he⟩ := ih rs call hcall
        exact ⟨c, List.mem_cons_of_mem _ hc, he⟩
      · simp only [if_neg hp] at hcall
        rcases List.mem_cons.mp hcall with h | h
        · subst h
          exact ⟨cells, List.mem_cons_self _ _, rfl⟩
        · obtain ⟨c, hc, he⟩ := ih rs call h
          exact ⟨c, List.mem_cons_of_mem _ hc, he⟩

theorem applyExcelPasteTSV_eq_aux_or_nil (rows : List ExcelRow) (cols : List String)
    (ac : Option ActiveCell) (text : String) :
    applyExcelPasteTSV rows cols ac text = [] ∨
    applyExcelPasteTSV rows cols ac text =
      pastePatchCallsAux cols (pasteStartColIndex ac cols)
        (rows.drop (pasteStartRowIndex ac rows)) (pasteGrid text) := by
  unfold applyExcelPasteTSV
  repeat' split
  all_goals simp

theorem runPasteCallsAux_partial (fails : Nat → Bool) :
    ∀ (calls : List (Nat × List (String × String))) (store : List ExcelRow) (i k : Nat),
      (∀ j, j < k → fails (i + j) = false) → k < calls.length → fails (i + k) = true →
      runPasteCallsAux fails store calls i = runAllCalls store (calls.take k) := by
  intro calls
  induction calls with
  | nil => intro store i k _ hk _; simp at hk
  | cons c rest ih =>
    intro store i k hbefore hk hfail
    cases k with
    | zero =>
      simp only [Nat.add_zero] at hfail
      simp [runPasteCallsAux, hfail, runAllCalls]
    | succ k =>
      have h0 : fails i = false := by simpa using hbefore 0 (Nat.succ_pos k)
      simp only [runPasteCallsAux, h0, Bool.false_eq_true, if_false]
      have hrec := ih (patchRowInStore store c.1 c.2) (i + 1) k
        (fun j hj => by
          have := hbefore (j + 1) (Nat.succ_lt_succ hj)
          simpa [Nat.add_assoc, Nat.add_comm 1 j] using this)
        (by simpa using Nat.lt_of_succ_lt_succ hk)
        (by
          have h1k : i + 1 + k = i + (k + 1) := by omega
          rw [h1k]; exact hfail)
      rw [hrec]
      simp [runAllCalls]

theorem runPasteCallsAux_nofail :
    ∀ (calls : List (Nat × List (String × String))) (store : List ExcelRow) (i : Nat),
      runPasteCallsAux (fun _ => false) store calls i = runAllCalls store calls := by
  intro calls
  induction calls with
  | nil => intro store i; simp [runPasteCallsAux, runAllCalls]
  | cons c rest ih =>
    intro store i
    simp only [runPasteCallsAux]
    rw [ih]
    simp [runAllCalls]

theorem pasteStartRowIndex_not_found (rows : List ExcelRow) (a : ActiveCell)
    (h : ∀ r ∈ rows, r.id ≠ a.rowId) : pasteStartRowIndex (some a) rows = 0 := by
  have hnone : rows.findIdx? (fun r => r.id == a.rowId) = none := by
    rw [List.findIdx?_eq_none_iff]
    intro r hr
    simpa using h r hr
  simp [pasteStartRowIndex, jsFindIndex, hnone]

theorem pasteStartColIndex_not_found (cols : List String) (a : ActiveCell)
    (h : ∀ c ∈ cols, c ≠ a.col) : pasteStartColIndex (some a) cols = 0 := by
  have hnone : cols.findIdx? (fun c => c == a.col) = none := by
    rw [List.findIdx?_eq_none_iff]
    intro c hc
    simpa using h c hc
  simp [pasteStartColIndex, jsFindIndex, hnone]

/-! ### Claim theorems about bulk paste -/

/-- C1: a bulk block paste of an R-row by C-column grid issues patch calls only
for at most R consecutive existing rows starting at the anchor row (in order),
and each patch's keys are at most that grid row's cells' worth of consecutive
existing columns starting at the anchor column; grid rows beyond the last
existing row and grid columns beyond the last existing column are ignored, and
every touched row and column already exists — no row or column is created. -/
theorem bulkPastePatchesOnlyExistingWindow (excelRows : List ExcelRow)
    (excelColumns : List String) (activeCell : Option ActiveCell) (excelPasteText : String)
    (hcols : ∀ k ∈ excelColumns, k ≠ "") :
    (((applyExcelPasteTSV excelRows excelColumns activeCell excelPasteText).map Prod.fst).Sublist
        (((excelRows.drop (pasteStartRowIndex activeCell excelRows)).take
            (pasteGrid excelPasteText).length).map ExcelRow.id))
    ∧ (applyExcelPasteTSV excelRows excelColumns activeCell excelPasteText).length ≤
        (pasteGrid excelPasteText).length
    ∧ (∀ call ∈ applyExcelPasteTSV excelRows excelColumns activeCell excelPasteText,
        call.1 ∈ excelRows.map ExcelRow.id)
    ∧ (∀ call ∈ applyExcelPasteTSV excelRows excelColumns activeCell excelPasteText,
        ∃ cells ∈ pasteGrid excelPasteText,
          call.2.map Prod.fst =
            (excelColumns.drop (pasteStartColIndex activeCell excelColumns)).take cells.length)
    ∧ (∀ call ∈ applyExcelPasteTSV excelRows excelColumns activeCell excelPasteText,
        ∀ k ∈ call.2.map Prod.fst, k ∈ excelColumns) := by
  rcases applyExcelPasteTSV_eq_aux_or_nil excelRows excelColumns activeCell excelPasteText with
    hnil | heq
  · rw [hnil]
    simp
  · rw [heq]
    have hsub := pastePatchCallsAux_rows_sublist excelColumns
      (pasteStartColIndex activeCell excelColumns) (pasteGrid excelPasteText)
      (excelRows.drop (pasteStartRowIndex activeCell excelRows))
    refine ⟨hsub, ?_, ?_, ?_, ?_⟩
    · calc (pastePatchCallsAux excelColumns (pasteStartColIndex activeCell excelColumns)
            (excelRows.drop (pasteStartRowIndex activeCell excelRows))
            (pasteGrid excelPasteText)).length
          = ((pastePatchCallsAux excelColumns (pasteStartColIndex activeCell excelColumns)
            (excelRows.drop (pasteStartRowIndex activeCell excelRows))
            (pasteGrid excelPasteText)).map Prod.fst).length := by simp
        _ ≤ (((excelRows.drop (pasteStartRowIndex activeCell excelRows)).take
            (pasteGrid excelPasteText).length).map ExcelRow.id).length := hsub.length_le
        _ ≤ (pasteGrid excelPasteText).length := by
            simp [List.length_take]
    · intro call hcall
      have h1 : call.1 ∈ (pastePatchCallsAux excelColumns
          (pasteStartColIndex activeCell excelColumns)
          (excelRows.drop (pasteStartRowIndex activeCell excelRows))
          (pasteGrid excelPasteText)).map Prod.fst := List.mem_map_of_mem _ hcall
      have h2 := hsub.subset h1
      have h3 : (((excelRows.drop (pasteStartRowIndex activeCell excelRows)).take
          (pasteGrid excelPasteText).length).map ExcelRow.id).Sublist
          (excelRows.map ExcelRow.id) :=
        ((List.take_sublist _ _).trans (List.drop_sublist _ _)).map ExcelRow.id
      exact h3.subset h2
    · intro call hcall
      obtain ⟨cells, hc, he⟩ := pastePatchCallsAux_patch_origin excelColumns
        (pasteStartColIndex activeCell excelColumns) (pasteGrid excelPasteText)
        (excelRows.drop (pasteStartRowIndex activeCell excelRows)) call hcall
      exact ⟨cells, hc, by rw [he, buildPastePatch_keys excelColumns hcols]⟩
    · intro call hcall k hk
      obtain ⟨cells, hc, he⟩ := pastePatchCallsAux_patch_origin excelColumns
        (pasteStartColIndex activeCell excelColumns) (pasteGrid excelPasteText)
        (excelRows.drop (pasteStartRowIndex activeCell excelRows)) call hcall
      rw [he, buildPastePatch_keys excelColumns hcols] at hk
      exact List.mem_of_mem_drop (List.mem_of_mem_take hk)

/-- Witness for C1 at a concrete input: a three-row grid pasted over a
two-row sheet issues at most as many patch calls as the grid has rows. -/
theorem bulkPastePatchesOnlyExistingWindow_witness :
    (applyExcelPasteTSV
        [⟨11, 1, 5, [("name", "a"), ("code", "x")]⟩, ⟨12, 1, 6, [("name", "b"), ("code", "y")]⟩]
        ["name", "code"] none "p\tq\nr\ts\nt\tu").length ≤
      (pasteGrid "p\tq\nr\ts\nt\tu").length :=
  (bulkPastePatchesOnlyExistingWindow
    [⟨11, 1, 5, [("name", "a"), ("code", "x")]⟩, ⟨12, 1, 6, [("name", "b"), ("code", "y")]⟩]
    ["name", "code"] none "p\tq\nr\ts\nt\tu" (by decide)).2.1

/-- C3: each affected row of a bulk paste is patched by its own patch call, in
order; if the call at position `k` fails, the store ends in the state where the
calls before `k` are applied and none after — earlier rows are not rolled back,
and with no failure every call of the block is applied. -/
theorem bulkPasteNoRollbackOnFailure (rows : List ExcelRow) (cols : List String)
    (ac : Option ActiveCell) (text : String) (store : List ExcelRow)
    (fails : Nat → Bool) (k : Nat)
    (hk : k < (applyExcelPasteTSV rows cols ac text).length)
    (hbefore : ∀ j, j < k → fails j = false)
    (hfail : fails k = true) :
    runPasteCalls store (applyExcelPasteTSV rows cols ac text) fails =
      runAllCalls store ((applyExcelPasteTSV rows cols ac text).take k)
    ∧ runPasteCalls store (applyExcelPasteTSV rows cols ac text) (fun _ => false) =
      runAllCalls store (applyExcelPasteTSV rows cols ac text) := by
  constructor
  · exact runPasteCallsAux_partial fails _ store 0 k (by simpa using hbefore)
      hk (by simpa using hfail)
  · exact runPasteCallsAux_nofail _ store 0

/-- Witness for C3 at a concrete input: a two-call paste whose second call
fails leaves exactly the first call applied. -/
theorem bulkPasteNoRollbackOnFailure_witness :
    runPasteCalls
        [⟨11, 1, 5, [("name", "a")]⟩, ⟨12, 1, 6, [("name", "b")]⟩]
        (applyExcelPasteTSV
          [⟨11, 1, 5, [("name", "a")]⟩, ⟨12, 1, 6, [("name", "b")]⟩]
          ["name"] none "p\nq") (fun i => i == 1) =
      runAllCalls
        [⟨11, 1, 5, [("name", "a")]⟩, ⟨12, 1, 6, [("name", "b")]⟩]
        ((applyExcelPasteTSV
          [⟨11, 1, 5, [("name", "a")]⟩, ⟨12, 1, 6, [("name", "b")]⟩]
          ["name"] none "p\nq").take 1) :=
  (bulkPasteNoRollbackOnFailure
    [⟨11, 1, 5, [("name", "a")]⟩, ⟨12, 1, 6, [("name", "b")]⟩]
    ["name"] none "p\nq"
    [⟨11, 1, 5, [("name", "a")]⟩, ⟨12, 1, 6, [("name", "b")]⟩]
    (fun i => i == 1) 1 (by decide)
    (fun j hj => by
      have hj0 : j = 0 := Nat.lt_one_iff.mp hj
      subst hj0
      rfl)
    rfl).1

/-- C9: with no selected cell the paste anchors at row index 0 and column
index 0; with a selected cell whose row or column is not among the loaded rows
or columns, the computed anchor index is clamped to 0; in that situation the
paste still runs anchored at the first visible row and first column and is not
skipped. -/
theorem bulkPasteAnchorClampedToZero (rows : List ExcelRow) (cols : List String)
    (a : ActiveCell) (text : String)
    (hrow : ∀ r ∈ rows, r.id ≠ a.rowId) (hcol : ∀ c ∈ cols, c ≠ a.col)
    (hrows : rows ≠ []) (hcolsne : cols ≠ []) (hcols : ∀ k ∈ cols, k ≠ "")
    (htext : trimChars text.toList ≠ [])
    (hcells : ∀ cells ∈ pasteGrid text, cells ≠ []) (hgrid : pasteGrid text ≠ []) :
    pasteStartRowIndex none rows = 0
    ∧ pasteStartColIndex none cols = 0
    ∧ pasteStartRowIndex (some a) rows = 0
    ∧ pasteStartColIndex (some a) cols = 0
    ∧ applyExcelPasteTSV rows cols (some a) text =
        pastePatchCallsAux cols 0 rows (pasteGrid text)
    ∧ applyExcelPasteTSV rows cols (some a) text ≠ [] := by
  have hr0 := pasteStartRowIndex_not_found rows a hrow
  have hc0 := pasteStartColIndex_not_found cols a hcol
  have heq : applyExcelPasteTSV rows cols (some a) text =
      pastePatchCallsAux cols 0 rows (pasteGrid text) := by
    unfold applyExcelPasteTSV
    rw [if_neg htext, if_neg (by simp [hrows, hcolsne]),
      if_neg (by simp [hgrid]), hr0, hc0]
    simp
  refine ⟨rfl, rfl, hr0, hc0, heq, ?_⟩
  rw [heq]
  obtain ⟨g0, grest, hg⟩ : ∃ g0 grest, pasteGrid text = g0 :: grest := by
    cases hgr : pasteGrid text with
    | nil => exact absurd hgr hgrid
    | cons g0 grest => exact ⟨g0, grest, rfl⟩
  obtain ⟨r0, rrest, hrw⟩ : ∃ r0 rrest, rows = r0 :: rrest := by
    cases rows with
    | nil => exact absurd rfl hrows
    | cons r0 rrest => exact ⟨r0, rrest, rfl⟩
  obtain ⟨v0, vrest, hv⟩ : ∃ v0 vrest, g0 = v0 :: vrest := by
    have hne := hcells g0 (by rw [hg]; exact List.mem_cons_self _ _)
    cases g0 with
    | nil => exact absurd rfl hne
    | cons v0 vrest => exact ⟨v0, vrest, rfl⟩
  obtain ⟨k0, krest, hk⟩ : ∃ k0 krest, cols = k0 :: krest := by
    cases cols with
    | nil => exact absurd rfl hcolsne
    | cons k0 krest => exact ⟨k0, krest, rfl⟩
  have hk0 : k0 ≠ "" := hcols k0 (by rw [hk]; exact List.mem_cons_self _ _)
  rw [hg, hrw]
  simp only [pastePatchCallsAux, hv, hk, buildPastePatch]
  simp [List.get?, hk0]

/-- Witness for C9 at a concrete input: a paste with a stale active cell
(absent row id and absent column) is still applied. -/
theorem bulkPasteAnchorClampedToZero_witness :
    applyExcelPasteTSV
        [⟨11, 1, 5, [("name", "a"), ("code", "x")]⟩, ⟨12, 1, 6, [("name", "b"), ("code", "y")]⟩]
        ["name", "code"] (some ⟨99, "zzz"⟩) "p\tq" ≠ [] :=
  (bulkPasteAnchorClampedToZero
    [⟨11, 1, 5, [("name", "a"), ("code", "x")]⟩, ⟨12, 1, 6, [("name", "b"), ("code", "y")]⟩]
    ["name", "code"] ⟨99, "zzz"⟩ "p\tq"
    (by decide) (by decide) (by decide) (by decide) (by decide) (by decide)
    (by decide) (by decide)).2.2.2.2.2


/-! ### Structured-entity values and the sparse-update merge -/

/-- A JSON-style cell/field value as the frontend sends it. -/
inductive JsVal where
  | null
  | str (s : String)
  | num (n : Int)
  | boolean (b : Bool)
deriving Repr, DecidableEq

/-- Blank in the sense of the sparse-update policy: `null` or the empty string. -/
def JsVal.isBlank : JsVal → Bool
  | JsVal.null => true
  | JsVal.str s => s == ""
  | _ => false

theorem lookup_append_singleton_ne {β : Type} (d : List (String × β)) (k k' : String)
    (v : β) (h : k' ≠ k) : (d ++ [(k', v)]).lookup k = d.lookup k := by
  induction d with
  | nil => simp [List.lookup, (by simpa using (Ne.symm h) : (k == k') = false)]
  | cons kv rest ih =>
    by_cases hk : k == kv.1
    · simp [List.lookup, hk]
    · simp [List.lookup, hk, ih]

theorem lookup_overwrite_ne {β : Type} (d : List (String × β)) (k k' : String) (v : β)
    (h : k' ≠ k) :
    (d.map (fun kv => if kv.1 == k' then (k', v) else kv)).lookup k = d.lookup k := by
  induction d with
  | nil => simp
  | cons kv rest ih =>
    obtain ⟨k1, v1⟩ := kv
    by_cases hk : k1 == k'
    · have hkv : k1 = k' := by simpa using hk
      have h1 : (k == k') = false := by simpa using Ne.symm h
      have h2 : (k == k1) = false := by simpa [hkv] using Ne.symm h
      have hcons : (((k1, v1) :: rest).map (fun kv => if kv.1 == k' then (k', v) else kv)) =
          (k', v) :: rest.map (fun kv => if kv.1 == k' then (k', v) else kv) := by
        simp only [List.map]
        rw [if_pos hk]
      rw [hcons]
      simp only [List.lookup, h1, h2]
      exact ih
    · have hcons : (((k1, v1) :: rest).map (fun kv => if kv.1 == k' then (k', v) else kv)) =
          (k1, v1) :: rest.map (fun kv => if kv.1 == k' then (k', v) else kv) := by
        simp only [List.map]
        rw [if_neg hk]
      rw [hcons]
      by_cases hkk : k == k1
      · simp only [List.lookup, hkk]
      · have hkkf : (k == k1) = false := by simpa using hkk
        simp only [List.lookup, hkkf]
        exact ih

/-- Insert-or-overwrite one field of a structured entity. -/
def putJsField (d : List (String × JsVal)) (k : String) (v : JsVal) :
    List (String × JsVal) :=
  if d.any (fun kv => kv.1 == k) then
    d.map (fun kv => if kv.1 == k then (k, v) else kv)
  else d ++ [(k, v)]

/-- Modelled from the spec: the backend merge behind `patchEntity`/upsert is not
among the sources (only the frontend callers are); §4.5's sparse-update policy
says non-null incoming values overwrite while null/blank incoming values never
erase existing data. -/
def sparsePatchField (d : List (String × JsVal)) (k : String) (v : JsVal) :
    List (String × JsVal) :=
  if v.isBlank then d else putJsField d k v

/-- Apply a whole PATCH payload field by field under the sparse-update policy. -/
def patchEntityMerge (fields payload : List (String × JsVal)) :
    List (String × JsVal) :=
  payload.foldl (fun d kv => sparsePatchField d kv.1 kv.2) fields

theorem lookup_putJsField_ne (d : List (String × JsVal)) (k k' : String) (v : JsVal)
    (h : k' ≠ k) : (putJsField d k' v).lookup k = d.lookup k := by
  unfold putJsField
  split
  · exact lookup_overwrite_ne d k k' v h
  · exact lookup_append_singleton_ne d k k' v h

/-- C2: the sparse-update law — patching a structured-entity field whose
incoming value is blank (null or empty) never clears a previously non-blank
stored value: the stored value survives the merge unchanged, and in particular
the field is never nulled or blanked. -/
theorem sparseUpdateNeverClearsNonBlank (fields payload : List (String × JsVal))
    (k : String) (vOld : JsVal)
    (hstored : fields.lookup k = some vOld)
    (hnonblank : vOld.isBlank = false)
    (hblank : ∀ v, (k, v) ∈ payload → v.isBlank = true) :
    (patchEntityMerge fields payload).lookup k = some vOld
    ∧ (patchEntityMerge fields payload).lookup k ≠ some JsVal.null
    ∧ (patchEntityMerge fields payload).lookup k ≠ some (JsVal.str "") := by
  have hmain : (patchEntityMerge fields payload).lookup k = some vOld := by
    induction payload generalizing fields with
    | nil => simpa [patchEntityMerge]
    | cons kv rest ih =>
      simp only [patchEntityMerge, List.foldl]
      by_cases hb : kv.2.isBlank
      · simp only [sparsePatchField, hb, if_pos rfl]
        exact ih fields hstored (fun v hv => hblank v (List.mem_cons_of_mem _ hv))
      · have hkne : kv.1 ≠ k := by
          intro hkk
          refine hb (hblank kv.2 ?_)
          have hkv : kv = (k, kv.2) := by cases kv; simp_all
          rw [← hkv]
          exact List.mem_cons_self _ _
        simp only [sparsePatchField, hb, Bool.false_eq_true, if_false]
        refine ih (putJsField fields kv.1 kv.2) ?_
          (fun v hv => hblank v (List.mem_cons_of_mem _ hv))
        rw [lookup_putJsField_ne fields k kv.1 kv.2 hkne]
        exact hstored
  refine ⟨hmain, ?_, ?_⟩
  · rw [hmain]
    intro hc
    have hv : vOld = JsVal.null := by simpa using hc
    subst hv
    simp [JsVal.isBlank] at hnonblank
  · rw [hmain]
    intro hc
    have hv : vOld = JsVal.str "" := by simpa using hc
    subst hv
    simp [JsVal.isBlank] at hnonblank

/-- Witness for C2 at a concrete input: blanking out a stored name leaves the
stored name in place. -/
theorem sparseUpdateNeverClearsNonBlank_witness :
    (patchEntityMerge [("name", JsVal.str "North")]
        [("name", JsVal.str "")]).lookup "name" = some (JsVal.str "North") :=
  (sparseUpdateNeverClearsNonBlank [("name", JsVal.str "North")]
    [("name", JsVal.str "")] "name" (JsVal.str "North") (by decide) (by decide)
    (by
      intro v hv
      simp only [List.mem_singleton, Prod.mk.injEq, true_and] at hv
      subst hv
      decide)).1

/-! ### Frame property of raw-row patches -/

theorem lookup_setKey_ne (d : List (String × String)) (k k' v : String)
    (h : k' ≠ k) : (setKey d k' v).lookup k = d.lookup k := by
  unfold setKey
  split
  · exact lookup_overwrite_ne d k k' v h
  · exact lookup_append_singleton_ne d k k' v h

theorem lookup_applyPatchData_notmem (patch : List (String × String)) :
    ∀ (d : List (String × String)) (k : String), k ∉ patch.map Prod.fst →
      (applyPatchData d patch).lookup k = d.lookup k := by
  induction patch with
  | nil => intro d k _; simp [applyPatchData]
  | cons kv rest ih =>
    intro d k hk
    have hk1 : kv.1 ≠ k := by
      intro he
      exact hk (by rw [← he]; exact List.mem_map_of_mem _ (List.mem_cons_self _ _))
    have hkrest : k ∉ rest.map Prod.fst := fun hmem =>
      hk (List.mem_cons_of_mem _ hmem)
    simp only [applyPatchData, List.foldl]
    have hrest := ih (setKey d kv.1 kv.2) k hkrest
    simp only [applyPatchData] at hrest
    rw [hrest, lookup_setKey_ne d k kv.1 kv.2 hk1]

/-- C7: editing a raw row — by single-cell patch or bulk paste — changes only
entries of the row's `data` mapping: `row_index`, `sheet_id` and `id` are
unchanged, data entries outside the payload keys are unchanged, and across a
whole store the sequences of `row_index` and `sheet_id` values are untouched,
so `row_index` keeps the source ordering and is never reassigned by an edit. -/
theorem rawRowEditPreservesIndexAndSheet (r : ExcelRow)
    (payload : List (String × String)) (k : String)
    (hout : k ∉ payload.map Prod.fst) (store : List ExcelRow) (rowId : Nat) :
    (patchExcelRow r payload).row_index = r.row_index
    ∧ (patchExcelRow r payload).sheet_id = r.sheet_id
    ∧ (patchExcelRow r payload).id = r.id
    ∧ (patchExcelRow r payload).data.lookup k = r.data.lookup k
    ∧ (patchRowInStore store rowId payload).map ExcelRow.row_index =
        store.map ExcelRow.row_index
    ∧ (patchRowInStore store rowId payload).map ExcelRow.sheet_id =
        store.map ExcelRow.sheet_id := by
  refine ⟨rfl, rfl, rfl, lookup_applyPatchData_notmem payload r.data k hout, ?_, ?_⟩
  · induction store with
    | nil => rfl
    | cons s rest ih =>
      simp only [patchRowInStore, List.map] at ih ⊢
      rw [ih]
      by_cases hs : s.id == rowId
      · simp [hs, patchExcelRow]
      · simp [hs]
  · induction store with
    | nil => rfl
    | cons s rest ih =>
      simp only [patchRowInStore, List.map] at ih ⊢
      rw [ih]
      by_cases hs : s.id == rowId
      · simp [hs, patchExcelRow]
      · simp [hs]

/-- Witness for C7 at a concrete input: patching the name leaves the row index
and an untouched column unchanged. -/
theorem rawRowEditPreservesIndexAndSheet_witness :
    (patchExcelRow ⟨7, 2, 3, [("code", "c1"), ("name", "n1")]⟩
        [("name", "z")]).row_index = 3
    ∧ (patchExcelRow ⟨7, 2, 3, [("code", "c1"), ("name", "n1")]⟩
        [("name", "z")]).data.lookup "code" = some "c1" :=
  ⟨(rawRowEditPreservesIndexAndSheet ⟨7, 2, 3, [("code", "c1"), ("name", "n1")]⟩
      [("name", "z")] "code" (by decide) [] 7).1,
    (rawRowEditPreservesIndexAndSheet ⟨7, 2, 3, [("code", "c1"), ("name", "n1")]⟩
      [("name", "z")] "code" (by decide) [] 7).2.2.2.1⟩

/-! ### Audit logging is fire-and-forget -/

/-- `logAction` (App.tsx): the `createAuditLog` call runs inside try/catch and a
failure is swallowed (only logged to the console), so `logAction` itself always
returns normally. -/
def logAction (auditResult : Except String Unit) : Except String Unit :=
  match auditResult with
  | Except.ok _ => Except.ok ()
  | Except.error _ => Except.ok ()

/-- The common shape of every handler in App.tsx that records an audit entry
(create, update, delete, import, search): run the main operation, then
`logAction`; the handler's outcome is the main operation's outcome. -/
def opWithAudit (opResult : Except String Unit) (auditResult : Except String Unit) :
    Except String Unit :=
  match opResult with
  | Except.error e => Except.error e
  | Except.ok _ =>
    match logAction auditResult with
    | Except.ok _ => Except.ok ()
    | Except.error e => Except.error e

/-- C8: the audit append is fire-and-forget — `logAction` never surfaces an
error, an enclosing operation's outcome equals its own result whatever the
audit call does, and two runs differing only in the audit outcome agree. -/
theorem auditAppendFireAndForget (opResult auditResult auditResult' : Except String Unit) :
    logAction auditResult = Except.ok ()
    ∧ opWithAudit opResult auditResult = opResult
    ∧ opWithAudit opResult auditResult = opWithAudit opResult auditResult' := by
  refine ⟨?_, ?_, ?_⟩
  · cases auditResult <;> rfl
  · cases opResult <;> cases auditResult <;> rfl
  · cases opResult <;> cases auditResult <;> cases auditResult' <;> rfl


/-! ### Upload, schema detection and ingestion -/

/-- Response of the detect-schema endpoint as the frontend consumes it
(`detectFileSchema` in api.ts): a detected type and the sheet names. -/
structure DetectedSchema where
  detected_type : String
  sheets : List String
deriving Repr, DecidableEq

/-- The upload-related component state of App.tsx. -/
structure UploadState where
  uploadedFile : Option String
  fileSchema : Option DetectedSchema
  importType : String
  selectedSheet : String
  errorMsg : Option String
deriving Repr, DecidableEq

/-- `handleFileSelect` (App.tsx): store the chosen file, then try schema
detection; a detection failure only records an error message — the uploaded
file is kept.  `detection` is the outcome of the `detectFileSchema` call, which
throws when the HTTP request fails. -/
def handleFileSelect (st : UploadState) (file : Option String)
    (detection : Except String DetectedSchema) : UploadState :=
  match file with
  | none => { st with uploadedFile := none, fileSchema := none }
  | some f =>
    let st1 : UploadState :=
      { st with uploadedFile := some f, errorMsg := none, fileSchema := none }
    match detection with
    | Except.ok schema =>
      { st1 with
        fileSchema := some schema
        importType := schema.detected_type
        selectedSheet :=
          match schema.sheets.head? with
          | some s0 => if s0 = "" then "auto" else s0
          | none => "auto" }
    | Except.error e => { st1 with errorMsg := some ("Failed to detect schema: " ++ e) }

/-- What `handleFileImport` (App.tsx) does with the current state: either it
reports "No file selected" and stops, or it invokes upload-and-import. -/
inductive ImportAttempt where
  | noFile
  | invoked (file : String) (sheet : String) (itype : String)
deriving Repr, DecidableEq

/-- `handleFileImport` (App.tsx): the only early return is a missing file; the
schema-detection state is not consulted. -/
def handleFileImport (st : UploadState) : ImportAttempt :=
  match st.uploadedFile with
  | none => ImportAttempt.noFile
  | some f => ImportAttempt.invoked f st.selectedSheet st.importType

/-- Outcome of one ingestion: whether the raw rows were stored and whether a
structured import was attempted. -/
structure IngestResult where
  rawStored : Bool
  structuredImport : Bool
deriving Repr, DecidableEq

/-- Modelled from the spec: the backend upload-and-import endpoint is not among
the sources (only its caller in api.ts is); per §4.2 and §4.3 the raw store is
written unconditionally, a sheet matching no profile is classified `unknown`
(raw-store-only, no structured import), and detection being inconclusive never
fails the ingestion. -/
def ingestUpload (itype : String) : IngestResult :=
  if itype = "unknown" then { rawStored := true, structuredImport := false }
  else { rawStored := true, structuredImport := true }

/-- C4: schema detection is advisory only — whatever the detection outcome
(success, `unknown`, or outright failure), the selected file is retained,
the import step still invokes ingestion rather than bailing out, ingestion
always stores the raw rows, and an `unknown` classification attempts no
structured import. -/
theorem detectionAdvisoryIngestionProceeds (st : UploadState) (f : String)
    (detection : Except String DetectedSchema) (itype : String) :
    (handleFileSelect st (some f) detection).uploadedFile = some f
    ∧ handleFileImport (handleFileSelect st (some f) detection) =
        ImportAttempt.invoked f (handleFileSelect st (some f) detection).selectedSheet
          (handleFileSelect st (some f) detection).importType
    ∧ (ingestUpload itype).rawStored = true
    ∧ (ingestUpload "unknown").structuredImport = false := by
  refine ⟨?_, ?_, ?_, rfl⟩
  · cases detection <;> rfl
  · cases detection <;> rfl
  · unfold ingestUpload
    split <;> rfl

/-! ### Structured import and the find-or-create upsert -/

/-- A structured entity with its surrogate id, natural key and fields. -/
structure Entity where
  id : Nat
  key : String
  fields : List (String × JsVal)
deriving Repr, DecidableEq

/-- The structured-entity store: current entities and the next surrogate id. -/
structure EntityStore where
  entities : List Entity
  nextId : Nat
deriving Repr, DecidableEq

/-- Modelled from the spec: the backend reconciliation/upsert engine is not
among the sources (only the import endpoints' frontend callers are); per §4.5,
`upsert` looks the natural key up, merges fields sparsely into a found entity
(`created = false`), and otherwise creates a new entity with a fresh id. -/
def upsert (s : EntityStore) (key : String) (fields : List (String × JsVal)) :
    EntityStore × Bool :=
  if s.entities.any (fun e => e.key == key) then
    ({ s with
        entities := s.entities.map (fun e =>
          if e.key == key then { e with fields := patchEntityMerge e.fields fields } else e) },
      false)
  else
    ({ entities := s.entities ++ [⟨s.nextId, key, patchEntityMerge [] fields⟩],
       nextId := s.nextId + 1 }, true)

/-- Modelled from the spec: a structured importer walks the sheet's data rows
in order, upserting each by its natural key, and reports the count of created
entities (§4.4). -/
def importRows (s : EntityStore) :
    List (String × List (String × JsVal)) → EntityStore × Nat
  | [] => (s, 0)
  | row :: rest =>
    match upsert s row.1 row.2 with
    | (s', created) =>
      match importRows s' rest with
      | (s'', n) => (s'', (if created then 1 else 0) + n)

/-- The natural keys currently present in the store. -/
def storeKeys (s : EntityStore) : List String := s.entities.map Entity.key

theorem upsert_found (s : EntityStore) (key : String) (fields : List (String × JsVal))
    (h : key ∈ storeKeys s) :
    (upsert s key fields).2 = false
    ∧ storeKeys (upsert s key fields).1 = storeKeys s
    ∧ (upsert s key fields).1.entities.map Entity.id = s.entities.map Entity.id
    ∧ (upsert s key fields).1.nextId = s.nextId := by
  have hany : s.entities.any (fun e => e.key == key) = true := by
    rw [List.any_eq_true]
    obtain ⟨e, he, hek⟩ := List.mem_map.mp h
    exact ⟨e, he, by simpa using hek⟩
  refine ⟨?_, ?_, ?_, ?_⟩
  · simp [upsert, hany]
  · simp only [upsert, hany, if_true, storeKeys, List.map_map]
    apply List.map_congr_left
    intro e he
    by_cases hk : e.key == key <;> simp [Function.comp, hk]
  · simp only [upsert, hany, if_true, List.map_map]
    apply List.map_congr_left
    intro e he
    by_cases hk : e.key == key <;> simp [Function.comp, hk]
  · simp [upsert, hany]

theorem upsert_key_mono (s : EntityStore) (key a : String) (fields : List (String × JsVal))
    (h : a ∈ storeKeys s) : a ∈ storeKeys (upsert s key fields).1 := by
  unfold upsert
  split
  · obtain ⟨e, he, hek⟩ := List.mem_map.mp h
    refine List.mem_map.mpr ?_
    by_cases hk : e.key == key
    · exact ⟨{ e with fields := patchEntityMerge e.fields fields },
        List.mem_map.mpr ⟨e, he, by simp [hk]⟩, hek⟩
    · exact ⟨e, List.mem_map.mpr ⟨e, he, by simp [hk]⟩, hek⟩
  · simp only [storeKeys, List.map_append]
    exact List.mem_append_left _ h

theorem upsert_key_self (s : EntityStore) (key : String) (fields : List (String × JsVal)) :
    key ∈ storeKeys (upsert s key fields).1 := by
  unfold upsert
  split
  next hany =>
    rw [List.any_eq_true] at hany
    obtain ⟨e, he, hek⟩ := hany
    refine List.mem_map.mpr ?_
    refine ⟨{ e with fields := patchEntityMerge e.fields fields },
      List.mem_map.mpr ⟨e, he, by simp [hek]⟩, ?_⟩
    simpa using hek
  next =>
    simp [storeKeys]

theorem importRows_all_found :
    ∀ (rows : List (String × List (String × JsVal))) (s : EntityStore),
      (∀ row ∈ rows, row.1 ∈ storeKeys s) →
      (importRows s rows).2 = 0
      ∧ storeKeys (importRows s rows).1 = storeKeys s
      ∧ (importRows s rows).1.entities.map Entity.id = s.entities.map Entity.id
      ∧ (importRows s rows).1.nextId = s.nextId := by
  intro rows
  induction rows with
  | nil => intro s _; exact ⟨rfl, rfl, rfl, rfl⟩
  | cons row rest ih =>
    intro s h
    have h0 := upsert_found s row.1 row.2 (h row (List.mem_cons_self _ _))
    cases hu : upsert s row.1 row.2 with
    | mk s' created =>
      rw [hu] at h0
      have hrest : ∀ row' ∈ rest, row'.1 ∈ storeKeys s' := by
        intro row' hr
        rw [h0.2.1]
        exact h row' (List.mem_cons_of_mem _ hr)
      have hih := ih s' hrest
      simp only [importRows, hu]
      cases hi : importRows s' rest with
      | mk s'' n =>
        rw [hi] at hih
        have hc : created = false := h0.1
        have hn : n = 0 := hih.1
        refine ⟨by simp [hc, hn], ?_, ?_, ?_⟩
        · exact hih.2.1.trans h0.2.1
        · exact hih.2.2.1.trans h0.2.2.1
        · exact hih.2.2.2.trans h0.2.2.2

theorem importRows_keys_acc :
    ∀ (rows : List (String × List (String × JsVal))) (s : EntityStore),
      (∀ a ∈ storeKeys s, a ∈ storeKeys (importRows s rows).1)
      ∧ (∀ row ∈ rows, row.1 ∈ storeKeys (importRows s rows).1) := by
  intro rows
  induction rows with
  | nil => intro s; exact ⟨fun a ha => ha, fun row hr => absurd hr (List.not_mem_nil _)⟩
  | cons row rest ih =>
    intro s
    cases hu : upsert s row.1 row.2 with
    | mk s' created =>
      have hmono : ∀ a ∈ storeKeys s, a ∈ storeKeys s' := by
        intro a ha
        have hm := upsert_key_mono s row.1 a row.2 ha
        rwa [hu] at hm
      have hself : row.1 ∈ storeKeys s' := by
        have hm := upsert_key_self s row.1 row.2
        rwa [hu] at hm
      constructor
      · intro a ha
        simp only [importRows, hu]
        cases hi : importRows s' rest with
        | mk s'' n =>
          have hm := (ih s').1 a (hmono a ha)
          rwa [hi] at hm
      · intro row' hr
        simp only [importRows, hu]
        cases hi : importRows s' rest with
        | mk s'' n =>
          rcases List.mem_cons.mp hr with he | hr'
          · subst he
            have hm := (ih s').1 row'.1 hself
            rwa [hi] at hm
          · have hm := (ih s').2 row' hr'
            rwa [hi] at hm

/-- C5: import is idempotent — running the same import a second time on the
store it produced performs zero new creates, keeps the same entity
identifiers and natural keys in the same order, and does not advance the id
counter: re-import updates entities matched by natural key instead of creating
duplicates. -/
theorem importIdempotentSecondRunCreatesNothing (s : EntityStore)
    (rows : List (String × List (String × JsVal))) :
    (importRows (importRows s rows).1 rows).2 = 0
    ∧ (importRows (importRows s rows).1 rows).1.entities.map Entity.id =
        (importRows s rows).1.entities.map Entity.id
    ∧ storeKeys (importRows (importRows s rows).1 rows).1 =
        storeKeys (importRows s rows).1
    ∧ (importRows (importRows s rows).1 rows).1.nextId =
        (importRows s rows).1.nextId := by
  have hall : ∀ row ∈ rows, row.1 ∈ storeKeys (importRows s rows).1 :=
    (importRows_keys_acc rows s).2
  have h := importRows_all_found rows (importRows s rows).1 hall
  exact ⟨h.1, h.2.2.1, h.2.1, h.2.2.2⟩

/-! ### Global search -/

/-- Does `as` start `bs`? -/
def leadMatch : List Char → List Char → Bool
  | [], _ => true
  | _ :: _, [] => false
  | a :: as, b :: bs => a == b && leadMatch as bs

/-- Does `sub` occur contiguously inside the second list? -/
def charsContain (sub : List Char) : List Char → Bool
  | [] => sub.isEmpty
  | b :: bs => leadMatch sub (b :: bs) || charsContain sub bs

/-- JavaScript-style `hay.includes(sub)`. -/
def strIncludes (hay sub : String) : Bool := charsContain sub.toList hay.toList

theorem leadMatch_iff (as : List Char) :
    ∀ bs : List Char, leadMatch as bs = true ↔ as <+: bs := by
  induction as with
  | nil => intro bs; simp [leadMatch]
  | cons a as ih =>
    intro bs
    cases bs with
    | nil =>
      simp [leadMatch]
    | cons b bs =>
      simp [leadMatch, List.cons_prefix_cons, ih, and_comm]

theorem charsContain_iff (sub : List Char) :
    ∀ hay : List Char, charsContain sub hay = true ↔ sub <:+: hay := by
  intro hay
  induction hay with
  | nil => simp [charsContain, List.isEmpty_iff]
  | cons b bs ih =>
    simp only [charsContain, Bool.or_eq_true, leadMatch_iff, ih, List.infix_cons_iff]

/-- A structured-entity search hit: its entity type and its name/code fields. -/
structure StructuredHit where
  etype : String
  name : String
  code : String
deriving Repr, DecidableEq

/-- Modelled from the spec: the backend global-search endpoint is not among the
sources (only its caller `globalSearch` in api.ts is); per §4.6 structured
entities are matched by substring over their name/code fields. -/
def structuredSearch (q : String) (ents : List StructuredHit) : List StructuredHit :=
  ents.filter (fun e => strIncludes e.name q || strIncludes e.code q)

/-- Modelled from the spec: raw-row search (the excel-by-value endpoint called
from `searchExcelByValue` in api.ts) matches the query as a substring of any
cell value in any sheet. -/
def rawSearch (q : String) (rows : List ExcelRow) : List ExcelRow :=
  rows.filter (fun r => r.data.any (fun kv => strIncludes kv.2 q))

/-- `handleGlobalSearch` (App.tsx) runs the structured search and the raw
search for the same query and stores the two result sets side by side. -/
def handleGlobalSearch (q : String) (ents : List StructuredHit) (rows : List ExcelRow) :
    List StructuredHit × List ExcelRow :=
  (structuredSearch q ents, rawSearch q rows)

/-- C6: global search returns two independent result sets — the structured
component ignores the raw rows and vice versa, the structured set is exactly
the entities whose name or code contains the query as a substring, and the raw
set is exactly the rows with some cell value containing the query; no
correlation between the two sets is computed. -/
theorem globalSearchIndependentResultSets (q : String) (ents : List StructuredHit)
    (rows : List ExcelRow) :
    (∀ rows' : List ExcelRow,
      (handleGlobalSearch q ents rows).1 = (handleGlobalSearch q ents rows').1)
    ∧ (∀ ents' : List StructuredHit,
      (handleGlobalSearch q ents rows).2 = (handleGlobalSearch q ents' rows).2)
    ∧ (∀ e, e ∈ (handleGlobalSearch q ents rows).1 ↔
        e ∈ ents ∧ (q.toList <:+: e.name.toList ∨ q.toList <:+: e.code.toList))
    ∧ (∀ r, r ∈ (handleGlobalSearch q ents rows).2 ↔
        r ∈ rows ∧ ∃ kv ∈ r.data, q.toList <:+: kv.2.toList) := by
  refine ⟨fun _ => rfl, fun _ => rfl, ?_, ?_⟩
  · intro e
    simp [handleGlobalSearch, structuredSearch, List.mem_filter, strIncludes,
      charsContain_iff]
  · intro r
    simp [handleGlobalSearch, rawSearch, List.mem_filter, List.any_eq_true, strIncludes,
      charsContain_iff]

/-! ### CSV export -/

/-- A cell value as `downloadCsv` (api.ts) sees it: null/undefined, or the
`String(v)` form of anything else. -/
inductive CsvVal where
  | vnull
  | vstr (s : String)
deriving Repr, DecidableEq

/-- The regex test `/[",\n]/.test(s)` of `downloadCsv`. -/
def needsQuoting (s : String) : Bool :=
  s.toList.any (fun c => c == '"' || c == ',' || c == '\n')

/-- `s.replace(/"/g, '""')` character by character. -/
def doubleQuotesChars : List Char → List Char
  | [] => []
  | c :: cs =>
    if c = '"' then '"' :: '"' :: doubleQuotesChars cs
    else c :: doubleQuotesChars cs

/-- `s.replace(/"/g, '""')`. -/
def doubleQuotes (s : String) : String := String.mk (doubleQuotesChars s.toList)

/-- The `escape` helper of `downloadCsv` (api.ts). -/
def escapeCsv : CsvVal → String
  | CsvVal.vnull => ""
  | CsvVal.vstr s => if needsQuoting s then "\"" ++ doubleQuotes s ++ "\"" else s

/-- `Set.prototype.add` on an insertion-ordered key list. -/
def addKey (acc : List String) (k : String) : List String :=
  if acc.contains k then acc else acc ++ [k]

/-- `Object.keys` of one row, in insertion order. -/
def rowKeys (r : List (String × CsvVal)) : List String := r.map Prod.fst

/-- The header keys of `downloadCsv`: rows folded into a `Set`, which keeps
first-occurrence order. -/
def csvKeys (rows : List (List (String × CsvVal))) : List String :=
  rows.foldl (fun acc r => (rowKeys r).foldl addKey acc) []

/-- `Array.prototype.join` with a separator. -/
def joinWith (sep : String) : List String → String
  | [] => ""
  | x :: xs => xs.foldl (fun acc y => acc ++ sep ++ y) x

/-- `(r as any)[k]`: a missing key reads as undefined, i.e. a null cell. -/
def lookupCell (r : List (String × CsvVal)) (k : String) : CsvVal :=
  match r.lookup k with
  | some v => v
  | none => CsvVal.vnull

/-- The CSV text `downloadCsv` builds: header line of the key union, then one
line per row with each key's escaped cell. -/
def csvString (rows : List (List (String × CsvVal))) : String :=
  joinWith "\n" (joinWith "," (csvKeys rows) ::
    rows.map (fun r => joinWith "," ((csvKeys rows).map (fun k => escapeCsv (lookupCell r k)))))

/-- `downloadCsv` (api.ts): an empty row list downloads nothing at all. -/
def downloadCsv (rows : List (List (String × CsvVal))) : Option String :=
  if rows.isEmpty then none else some (csvString rows)

theorem mem_foldl_addKey (ks : List String) :
    ∀ (acc : List String) (a : String),
      a ∈ ks.foldl addKey acc ↔ a ∈ acc ∨ a ∈ ks := by
  induction ks with
  | nil => intro acc a; simp
  | cons k rest ih =>
    intro acc a
    simp only [List.foldl, ih, addKey]
    split
    next hc =>
      constructor
      · rintro (h | h)
        · exact Or.inl h
        · exact Or.inr (List.mem_cons_of_mem _ h)
      · rintro (h | h)
        · exact Or.inl h
        · rcases List.mem_cons.mp h with he | h2
          · subst he
            exact Or.inl (by simpa using hc)
          · exact Or.inr h2
    next hc =>
      constructor
      · rintro (h | h)
        · rcases List.mem_append.mp h with h1 | h1
          · exact Or.inl h1
          · have ha : a = k := by simpa using h1
            exact Or.inr (by rw [ha]; exact List.mem_cons_self _ _)
        · exact Or.inr (List.mem_cons_of_mem _ h)
      · rintro (h | h)
        · exact Or.inl (List.mem_append_left _ h)
        · rcases List.mem_cons.mp h with he | h2
          · subst he
            exact Or.inl (List.mem_append_right _ (by simp))
          · exact Or.inr h2

theorem mem_csvKeys_aux (rows : List (List (String × CsvVal))) :
    ∀ (acc : List String) (a : String),
      a ∈ rows.foldl (fun acc r => (rowKeys r).foldl addKey acc) acc ↔
        a ∈ acc ∨ ∃ r ∈ rows, a ∈ rowKeys r := by
  induction rows with
  | nil => intro acc a; simp
  | cons r rest ih =>
    intro acc a
    simp only [List.foldl, ih, mem_foldl_addKey]
    constructor
    · rintro ((h | h) | h)
      · exact Or.inl h
      · exact Or.inr ⟨r, List.mem_cons_self _ _, h⟩
      · obtain ⟨r2, hr2, ha⟩ := h
        exact Or.inr ⟨r2, List.mem_cons_of_mem _ hr2, ha⟩
    · rintro (h | h)
      · exact Or.inl (Or.inl h)
      · obtain ⟨r2, hr2, ha⟩ := h
        rcases List.mem_cons.mp hr2 with he | h2
        · subst he
          exact Or.inl (Or.inr ha)
        · exact Or.inr ⟨r2, h2, ha⟩

theorem doubleQuotesChars_eq_flatMap (cs : List Char) :
    doubleQuotesChars cs = cs.flatMap (fun c => if c = '"' then ['"', '"'] else [c]) := by
  induction cs with
  | nil => rfl
  | cons c rest ih =>
    by_cases hc : c = '"'
    · simp [doubleQuotesChars, hc, ih]
    · simp [doubleQuotesChars, hc, ih]

/-- C10: in CSV export every null/undefined cell — including a key missing from
a row — is emitted as the empty string; any other value is emitted as its
string form, wrapped in double quotes exactly when it contains a double quote,
a comma or a newline, with embedded double quotes doubled; and the header is
exactly the union of the keys of all exported rows. -/
theorem downloadCsvEscapingAndHeader (rows : List (List (String × CsvVal)))
    (s : String) (r : List (String × CsvVal)) (k : String) :
    escapeCsv CsvVal.vnull = ""
    ∧ (r.lookup k = none → escapeCsv (lookupCell r k) = "")
    ∧ (needsQuoting s = false → escapeCsv (CsvVal.vstr s) = s)
    ∧ (needsQuoting s = true →
        escapeCsv (CsvVal.vstr s) = "\"" ++ doubleQuotes s ++ "\"")
    ∧ (needsQuoting s = true ↔
        ('"' ∈ s.toList ∨ ',' ∈ s.toList ∨ '\n' ∈ s.toList))
    ∧ (doubleQuotes s).toList =
        s.toList.flatMap (fun c => if c = '"' then ['"', '"'] else [c])
    ∧ (∀ a, a ∈ csvKeys rows ↔ ∃ row ∈ rows, a ∈ row.map Prod.fst)
    ∧ downloadCsv rows = if rows.isEmpty then none else some (csvString rows) := by
  refine ⟨rfl, ?_, ?_, ?_, ?_, ?_, ?_, rfl⟩
  · intro h
    simp [lookupCell, h, escapeCsv]
  · intro h
    simp [escapeCsv, h]
  · intro h
    simp [escapeCsv, h]
  · constructor
    · intro h
      rw [needsQuoting, List.any_eq_true] at h
      obtain ⟨c, hc, hor⟩ := h
      have hor2 : (c = '"' ∨ c = ',') ∨ c = '\n' := by simpa using hor
      rcases hor2 with (h1 | h1) | h1
      · exact Or.inl (h1 ▸ hc)
      · exact Or.inr (Or.inl (h1 ▸ hc))
      · exact Or.inr (Or.inr (h1 ▸ hc))
    · intro h
      rw [needsQuoting, List.any_eq_true]
      rcases h with h | h | h
      · exact ⟨'"', h, by decide⟩
      · exact ⟨',', h, by decide⟩
      · exact ⟨'\n', h, by decide⟩
  · simpa [doubleQuotes] using doubleQuotesChars_eq_flatMap s.toList
  · intro a
    rw [csvKeys, mem_csvKeys_aux rows [] a]
    simp [rowKeys]

/-- Witness for C10 at a concrete input: a value containing a comma and a
quote is emitted wrapped in quotes with the inner quote doubled. -/
theorem downloadCsvEscapingAndHeader_witness :
    escapeCsv (CsvVal.vstr "a,\"b") = "\"" ++ doubleQuotes "a,\"b" ++ "\"" :=
  (downloadCsvEscapingAndHeader [] "a,\"b" [] "k").2.2.2.1 (by decide)

end Inventory
